import Mathlib

/-!
Verification of the MLInterviewPro auth/progress core (src/js/auth.js,
src/js/database.js, and the auth-ui module) against its design
specification.

The JavaScript modules are shallowly embedded: module-level mutable state
becomes explicit state values threaded through the functions, Firestore
documents become association lists, `localStorage` becomes an association
list of string keys and values, and code that can throw returns `Except`.
Timestamps (`serverTimestamp`, `Date.now`) are modelled as explicit `Nat`
parameters.
-/

namespace MLIP

/-! ## Auth state broadcaster (src/js/auth.js)

`auth.js` keeps two pieces of module state relevant here:
`let currentUser = null` and `const authStateListeners = []`.
A JS variable holding a user can be `undefined`, `null`, or a user object;
`JsUser` mirrors this exactly because `onAuthStateChanged` tests
`currentUser !== undefined`.  Listener callbacks are identified by `Nat`
ids (JS compares listener functions by reference identity in `indexOf`). -/

inductive JsUser where
  | undef
  | jsNull
  | signedIn (uid : String)
deriving DecidableEq, Repr

structure AuthState where
  currentUser : JsUser
  listeners : List Nat
deriving DecidableEq, Repr

/-- The state of `auth.js` at module load:
`let currentUser = null;` and `const authStateListeners = [];`. -/
def initialAuthState : AuthState := { currentUser := .jsNull, listeners := [] }

/-- The state update performed by `handleAuthStateChange(user)`:
`currentUser = user;` (Firebase passes a user object or `null`, never
`undefined`).  Session-cache writes and the listener fan-out are modelled
separately below. -/
def handleAuthStateChangeState (u : Option String) (s : AuthState) : AuthState :=
  { s with currentUser := match u with | some uid => .signedIn uid | none => .jsNull }

/-- Embedding of `onAuthStateChanged(callback)` from auth.js:
pushes the callback onto `authStateListeners`, then
`if (currentUser !== undefined) callback(currentUser);`.
Returns the new state together with the list of values the callback was
immediately and synchronously invoked with (before the subscribe call
returns). -/
def onAuthStateChanged (cb : Nat) (s : AuthState) : AuthState × List JsUser :=
  let s1 := { s with listeners := s.listeners ++ [cb] }
  if s.currentUser ≠ .undef then (s1, [s.currentUser]) else (s1, [])

/-- The unsubscribe closure returned by `onAuthStateChanged`:
`const index = authStateListeners.indexOf(callback);
if (index > -1) authStateListeners.splice(index, 1);`.
`List.indexOf` returns the list length when the element is absent, so the
`index > -1` guard of JS corresponds to `i < ls.length`. -/
def unsubscribeOnce (cb : Nat) (ls : List Nat) : List Nat :=
  let i := ls.indexOf cb
  if i < ls.length then ls.eraseIdx i else ls

/-- States of the broadcaster reachable from module load through the
operations of auth.js. -/
inductive ReachableAuth : AuthState → Prop where
  | init : ReachableAuth initialAuthState
  | authChange {s} (u : Option String) :
      ReachableAuth s → ReachableAuth (handleAuthStateChangeState u s)
  | subscribe {s} (cb : Nat) :
      ReachableAuth s → ReachableAuth (onAuthStateChanged cb s).1
  | unsubscribe {s} (cb : Nat) :
      ReachableAuth s →
      ReachableAuth { s with listeners := unsubscribeOnce cb s.listeners }

/-- In every reachable state `currentUser` is not `undefined`:
it is initialised to `null` and only ever assigned the argument of
`handleAuthStateChange`, which is a user object or `null`. -/
theorem reachable_currentUser_ne_undef {s : AuthState} (h : ReachableAuth s) :
    s.currentUser ≠ .undef := by
  induction h with
  | init => simp [initialAuthState]
  | authChange u _ _ =>
      cases u <;> simp [handleAuthStateChangeState]
  | subscribe cb _ ih =>
      unfold onAuthStateChanged
      split <;> simpa using ih
  | unsubscribe cb _ ih => simpa using ih

/-! ### Listener fan-out (handleAuthStateChange, lines 163-170)

```
authStateListeners.forEach(listener => {
    try { listener(user); } catch (error) { console.error(...); }
});
```

A listener's behaviour is a function from the delivered value to
`Except String Unit`: `.error e` models the callback throwing `e`.
The fan-out is embedded in the exception monad so that an uncaught throw
would surface as `.error`; the `try`/`catch` around each call is the
`tryLog` wrapper, which converts a throw into a logged value and lets the
loop continue.  The result records, per listener in registration order,
the value it was invoked with and the error that was caught (if any). -/

def tryLog (r : Except String Unit) : Except String (Option String) :=
  match r with
  | .ok _ => .ok none
  | .error e => .ok (some e)

def notifyListeners (behavior : Nat → JsUser → Except String Unit) :
    List Nat → JsUser → Except String (List (JsUser × Option String))
  | [], _ => .ok []
  | cb :: rest, u =>
      match tryLog (behavior cb u) with
      | .error e => .error e
      | .ok logged =>
          match notifyListeners behavior rest u with
          | .error e => .error e
          | .ok tail => .ok ((u, logged) :: tail)

/-- Caught-error view of a single listener invocation. -/
def caughtErr (r : Except String Unit) : Option String :=
  match r with
  | .ok _ => none
  | .error e => some e

theorem notifyListeners_eq (behavior : Nat → JsUser → Except String Unit)
    (ls : List Nat) (u : JsUser) :
    notifyListeners behavior ls u =
      .ok (ls.map (fun cb => (u, caughtErr (behavior cb u)))) := by
  induction ls with
  | nil => rfl
  | cons cb rest ih =>
      cases h : behavior cb u <;>
        simp [notifyListeners, tryLog, h, ih, caughtErr]

/-- The unsubscribe closure removes exactly the first occurrence of the
callback (JS `indexOf` + `splice(index, 1)` = `List.erase`). -/
theorem unsubscribeOnce_eq_erase (cb : Nat) (ls : List Nat) :
    unsubscribeOnce cb ls = ls.erase cb := by
  unfold unsubscribeOnce
  by_cases h : cb ∈ ls
  · rw [if_pos (List.indexOf_lt_length.mpr h), List.eraseIdx_indexOf_eq_erase]
  · rw [if_neg (by simpa using fun hlt => h (List.indexOf_lt_length.mp hlt)),
      List.erase_of_not_mem h]

/-- Claim C2 (counterexample): in the pristine broadcaster state — no
`handleAuthStateChange` call has happened yet, the spec's Unconfirmed
state — registering a callback through `onAuthStateChanged` does produce
an immediate synchronous invocation (with `null`), because `currentUser`
is initialised to `null`, not `undefined`, so the
`currentUser !== undefined` guard already passes.  The claim asserts the
immediate-invocation list would be empty. -/
theorem claim2_counterexample :
    (onAuthStateChanged 0 initialAuthState).2 = [JsUser.jsNull] ∧
      (onAuthStateChanged 0 initialAuthState).2 ≠ [] := by
  constructor <;> simp [onAuthStateChanged, initialAuthState]

/-- Claim C2 (amended): in every reachable broadcaster state — including
the state before any `handleAuthStateChange` call — `onAuthStateChanged`
invokes the new callback exactly once, immediately and synchronously,
with the current value of `currentUser` (which is `null` before the
first auth-state change and the last confirmed value afterwards).  There
is no state in which a subscriber receives no immediate invocation. -/
theorem claim2_subscribe_immediate_replay {s : AuthState} (h : ReachableAuth s)
    (cb : Nat) :
    (onAuthStateChanged cb s).2 = [s.currentUser] := by
  unfold onAuthStateChanged
  rw [if_pos (reachable_currentUser_ne_undef h)]

theorem claim2_subscribe_immediate_replay_witness :
    (onAuthStateChanged 7 initialAuthState).2 = [initialAuthState.currentUser] :=
  claim2_subscribe_immediate_replay ReachableAuth.init 7

/-- Claim C3: during the listener fan-out of `handleAuthStateChange`, a
callback that throws is caught (its error is logged, not propagated), and
every listener — in particular every listener after the failing one in
registration order — is still invoked with the new value.  The fan-out
never surfaces an exception. -/
theorem claim3_fanout_isolates_failures
    (behavior : Nat → JsUser → Except String Unit) (ls : List Nat) (u : JsUser)
    (i : Nat) (hi : i < ls.length) (e : String)
    (hthrow : behavior (ls.get ⟨i, hi⟩) u = .error e) :
    ∃ log, notifyListeners behavior ls u = .ok log ∧
      log.length = ls.length ∧
      (∀ (j : Nat) (p : JsUser × Option String), log[j]? = some p → p.1 = u) ∧
      (∃ p : JsUser × Option String, log[i]? = some p ∧ p.2 = some e) := by
  simp only [List.get_eq_getElem] at hthrow
  refine ⟨ls.map (fun cb => (u, caughtErr (behavior cb u))),
    notifyListeners_eq behavior ls u, by simp, ?_, ?_⟩
  · intro j p hp
    rcases List.getElem?_eq_some_iff.mp hp with ⟨hj, hval⟩
    simp only [List.getElem_map] at hval
    rw [← hval]
  · refine ⟨(u, caughtErr (behavior (ls[i]) u)), ?_, ?_⟩
    · rw [List.getElem?_eq_getElem (by simpa using hi)]
      simp
    · simp [hthrow, caughtErr]

theorem claim3_fanout_isolates_failures_witness :
    ∃ log,
      notifyListeners
        (fun cb _ => if cb = 1 then .error "boom" else .ok ()) [0, 1, 2]
        (JsUser.signedIn "u1") = .ok log ∧
      log.length = ([0, 1, 2] : List Nat).length ∧
      (∀ (j : Nat) (p : JsUser × Option String),
        log[j]? = some p → p.1 = JsUser.signedIn "u1") ∧
      (∃ p : JsUser × Option String, log[1]? = some p ∧ p.2 = some "boom") :=
  claim3_fanout_isolates_failures
    (fun cb _ => if cb = 1 then .error "boom" else .ok ()) [0, 1, 2]
    (JsUser.signedIn "u1") 1 (by decide) "boom" rfl

/-- Claim C8 (counterexample): when the same callback function was
registered twice, calling its unsubscribe handle a second time is not a
no-op — `indexOf` finds the remaining occurrence and `splice` removes it
too.  The claim asserts the list after the second call equals the list
after the first call for every list, including duplicates. -/
theorem claim8_counterexample :
    unsubscribeOnce 7 (unsubscribeOnce 7 [7, 7]) ≠ unsubscribeOnce 7 [7, 7] := by
  decide

/-- Claim C8 (amended): an unsubscribe handle removes the first remaining
occurrence of its callback from the listener list (so it deregisters the
callback whenever that callback is registered at most once), and calling
the handle a second time is a no-op provided the callback was registered
at most once. -/
theorem claim8_unsubscribe_erase (cb : Nat) (ls : List Nat)
    (hcount : ls.count cb ≤ 1) :
    (cb ∈ ls → (unsubscribeOnce cb ls).count cb = 0) ∧
      unsubscribeOnce cb (unsubscribeOnce cb ls) = unsubscribeOnce cb ls := by
  simp only [unsubscribeOnce_eq_erase]
  have hz : (ls.erase cb).count cb = 0 := by
    rw [List.count_erase_self]
    omega
  refine ⟨fun _ => hz, ?_⟩
  exact List.erase_of_not_mem (List.count_eq_zero.mp hz)

theorem claim8_unsubscribe_erase_witness :
    ((7 ∈ [5, 7, 9] → (unsubscribeOnce 7 [5, 7, 9]).count 7 = 0) ∧
      unsubscribeOnce 7 (unsubscribeOnce 7 [5, 7, 9]) =
        unsubscribeOnce 7 [5, 7, 9]) :=
  claim8_unsubscribe_erase 7 [5, 7, 9] (by decide)

/-! ## Session cache (auth.js, storeUserSession / getStoredUserSession)

The cache is the single localStorage slot `mlinterviewpro_user_session`.
The value stored is `JSON.stringify(sessionData)`; a slot holding a
string that `JSON.parse` rejects is modelled as `.malformed`.
`storeUserSession` wraps `localStorage.setItem` in `try`/`catch`
(a failed write — quota, storage unavailable — is logged and swallowed);
the possibility of the write throwing is the explicit `writeFails`
parameter, and the `Except` result type shows whether anything escapes
the function. -/

structure SessionData where
  uid : String
  email : String
  displayName : String
  photoURL : String
  emailVerified : Bool
  providerId : String
  lastLoginAt : Nat
deriving DecidableEq, Repr

inductive StoredSession where
  | wellFormed (d : SessionData)
  | malformed
deriving DecidableEq, Repr

/-- Embedding of `storeUserSession(user)`:
`try { localStorage.setItem('mlinterviewpro_user_session', JSON.stringify(sessionData)); }
catch (error) { console.error(...); }`.
When the underlying write throws (`writeFails = true`) the slot is left
as it was and the error is caught. -/
def storeUserSession (user : SessionData) (writeFails : Bool)
    (slot : Option StoredSession) : Except String (Option StoredSession) :=
  if writeFails then .ok slot
  else .ok (some (.wellFormed user))

/-- Embedding of `getStoredUserSession()`: reads the slot and `JSON.parse`s it inside
`try`/`catch`; a missing entry gives `null`, a malformed entry makes
`JSON.parse` throw, which is caught and turned into `null`. -/
def getStoredUserSession (slot : Option StoredSession) : Option SessionData :=
  match slot with
  | none => none
  | some (.wellFormed d) => some d
  | some .malformed => none

/-- Embedding of `clearUserSession()`: `localStorage.removeItem` inside `try`/`catch`. -/
def clearUserSession (removeFails : Bool) (slot : Option StoredSession) :
    Except String (Option StoredSession) :=
  if removeFails then .ok slot else .ok none

/-- A sample previously-stored session used in the C6 counterexample. -/
def oldSession : SessionData :=
  { uid := "uidA", email := "a@x.io", displayName := "A", photoURL := "",
    emailVerified := true, providerId := "google.com", lastLoginAt := 10 }

/-- A second session whose write will fail in the C6 counterexample. -/
def newSession : SessionData :=
  { uid := "uidB", email := "b@x.io", displayName := "B", photoURL := "",
    emailVerified := false, providerId := "apple.com", lastLoginAt := 20 }

/-- Claim C6 (counterexample): a failed write does not clear the slot, so
when a session was stored earlier, a read after the failed write returns
that earlier projection — not absent, as the claim states.  (The no-raise
half of the claim does hold and is proved in the amended theorem.) -/
theorem claim6_counterexample :
    storeUserSession newSession true (some (.wellFormed oldSession)) =
        .ok (some (.wellFormed oldSession)) ∧
      getStoredUserSession (some (.wellFormed oldSession)) = some oldSession ∧
      getStoredUserSession (some (.wellFormed oldSession)) ≠ none := by
  refine ⟨rfl, rfl, ?_⟩
  simp [getStoredUserSession]

/-- Claim C6 (amended): a failed localStorage write inside
`storeUserSession` never raises past the function (the caller always gets
a normal return), and it leaves the stored slot unchanged — so a
subsequent `getStoredUserSession` returns exactly what it returned before
the failed write; in particular it returns absent whenever nothing was
stored before the failure. -/
theorem claim6_write_failure_swallowed (user : SessionData)
    (slot : Option StoredSession) :
    storeUserSession user true slot = .ok slot ∧
      (slot = none → getStoredUserSession slot = none) := by
  exact ⟨rfl, fun h => by simp [h, getStoredUserSession]⟩

/-! ## requireAuth (auth-ui module, Content Gate Controller)

`requireAuth(options)` reads the current user through the double
optional chain `window.MLInterviewAuth?.getCurrentUser?.()`.  The
environment therefore models both `window.MLInterviewAuth` and its
`getCurrentUser` member as possibly missing; the chain collapses either
absence to `undefined` instead of throwing, which is why the function is
total.  The `Except` result type is where a thrown TypeError would show
up if the code had used a plain member access. -/

structure AuthModuleObj where
  getCurrentUser : Option (Unit → JsUser)

structure JsEnv where
  mlInterviewAuth : Option AuthModuleObj

/-- Embedding of `window.MLInterviewAuth?.getCurrentUser?.()` — optional chaining:
missing object or missing member yields `undefined`; otherwise the
method's result (a user object or `null`). -/
def optChainGetCurrentUser (env : JsEnv) : JsUser :=
  match env.mlInterviewAuth with
  | none => .undef
  | some m =>
      match m.getCurrentUser with
      | none => .undef
      | some f => f ()

/-- Truthiness of the chained read: `if (user)`. -/
def identityPresent (env : JsEnv) : Bool :=
  match optChainGetCurrentUser env with
  | .signedIn _ => true
  | _ => false

structure RequireAuthOptions where
  showModal : Bool := true
  redirectTo : Option String := none
  message : Option String := none

inductive AuthUiEffect where
  | noEffect
  | redirected (url : String)
  | modalShown (message : Option String)
deriving DecidableEq, Repr

/-- Embedding of `requireAuth(options)` from the auth-ui module: returns `true`
immediately when the chained current user is truthy; otherwise redirects
(when `redirectTo` is configured) or shows the sign-in modal (when
`showModal`), and returns `false`. -/
def requireAuth (env : JsEnv) (opts : RequireAuthOptions) :
    Except String (Bool × AuthUiEffect) :=
  match optChainGetCurrentUser env with
  | .signedIn _ => .ok (true, .noEffect)
  | _ =>
      match opts.redirectTo with
      | some url => .ok (false, .redirected url)
      | none =>
          if opts.showModal then .ok (false, .modalShown opts.message)
          else .ok (false, .noEffect)

/-- Claim C5: in every broadcaster state — auth module missing,
`getCurrentUser` member missing, loaded but not yet confirmed
(`currentUser` = `null`), or confirmed — `requireAuth` returns normally
(never throws), and it returns `true` exactly when the current Identity
is present at call time. -/
theorem claim5_requireAuth_total (env : JsEnv) (opts : RequireAuthOptions) :
    ∃ b eff, requireAuth env opts = .ok (b, eff) ∧
      (b = true ↔ identityPresent env = true) := by
  unfold requireAuth identityPresent
  cases h : optChainGetCurrentUser env with
  | undef =>
      cases hro : opts.redirectTo with
      | none =>
          by_cases hm : opts.showModal = true
      <;> simp [hro, hm]
      | some url => simp [hro]
  | jsNull =>
      cases hro : opts.redirectTo with
      | none =>
          by_cases hm : opts.showModal = true
      <;> simp [hro, hm]
      | some url => simp [hro]
  | signedIn uid => simp

/-! ## Content gate (auth-ui module, createContentGate / removeContentGate)

The DOM region is a list of nodes.  `createContentGate` (called while
anonymous) moves the region's children into a blurred wrapper, appends a
sign-in overlay, and stores `container._authGate = {overlay,
contentWrapper}` — modelled by keeping the wrapped original children in
`authGate`.  It also registers an `onAuthStateChanged` subscription
`(user) => { if (user && container._authGate) removeContentGate(container); }`;
successive notifications of that subscription are modelled by folding
`notifyGate` over the delivered identity values.  The `Nat` component
counts how many times the overlay-removal branch ran. -/

inductive DomNode where
  | content (id : Nat)
  | gateWrapper (inner : List DomNode)
  | gateOverlay

def isOverlayNode : DomNode → Bool
  | .gateOverlay => true
  | _ => false

def isWrapperNode : DomNode → Bool
  | .gateWrapper _ => true
  | _ => false

structure Container where
  children : List DomNode
  authGate : Option (List DomNode)

/-- Embedding of `createContentGate(containerSelector, options)`: returns the
container unchanged when the user is already signed in; otherwise wraps
the children, appends the overlay and records `_authGate`. -/
def createContentGate (userPresent : Bool) (c : Container) : Container :=
  if userPresent then c
  else { children := [.gateWrapper c.children, .gateOverlay],
         authGate := some c.children }

/-- Embedding of `removeContentGate(container)`: no-op when `container._authGate` is
absent; otherwise removes the overlay, moves the wrapper's children back
into the container (appended, as `appendChild` does), removes the
wrapper, and deletes `container._authGate`. -/
def removeContentGate (c : Container) : Container :=
  match c.authGate with
  | none => c
  | some wrapped =>
      { children :=
          (c.children.filter
            (fun n => !(isOverlayNode n) && !(isWrapperNode n))) ++ wrapped,
        authGate := none }

/-- One delivery of the gate's `onAuthStateChanged` subscription:
`if (user && container._authGate) removeContentGate(container)`.
The counter records how many times removal actually ran. -/
def notifyGate (state : Container × Nat) (u : Option String) : Container × Nat :=
  if u.isSome ∧ state.1.authGate.isSome then (removeContentGate state.1, state.2 + 1)
  else state

theorem notifyGate_of_ungated (c : Container) (n : Nat) (hc : c.authGate = none)
    (us : List (Option String)) : us.foldl notifyGate (c, n) = (c, n) := by
  induction us with
  | nil => rfl
  | cons u rest ih => simp [notifyGate, hc, ih]

/-- Claim C7: a content gate applied to a region while the Identity is
absent is removed exactly once — automatically, by its registered
subscription, with no further calls from the caller — at the first
subsequent notification carrying a present Identity, and the gated
children are restored; notifications after that are no-ops.
(The subscription's immediate replay at registration time carries the
absent value, so it matches the `u = none` no-op case.) -/
theorem claim7_gate_autoremoval (cs : List DomNode) (us : List (Option String))
    (hp : us.any Option.isSome = true) :
    (us.foldl notifyGate (createContentGate false ⟨cs, none⟩, 0)).1.children = cs ∧
      (us.foldl notifyGate (createContentGate false ⟨cs, none⟩, 0)).1.authGate = none ∧
      (us.foldl notifyGate (createContentGate false ⟨cs, none⟩, 0)).2 = 1 := by
  have hgate : createContentGate false ⟨cs, none⟩ =
      { children := [.gateWrapper cs, .gateOverlay], authGate := some cs } := rfl
  have hremove :
      removeContentGate (Container.mk [.gateWrapper cs, .gateOverlay] (some cs)) =
        Container.mk cs none := by
    simp [removeContentGate, isOverlayNode, isWrapperNode]
  rw [hgate]
  induction us with
  | nil => simp at hp
  | cons u rest ih =>
      cases u with
      | none =>
          have hp' : rest.any Option.isSome = true := by simpa using hp
          have := ih hp'
          simpa [notifyGate] using this
      | some uid =>
          have hstep :
              notifyGate
                (Container.mk [.gateWrapper cs, .gateOverlay] (some cs), 0)
                (some uid) = (Container.mk cs none, 1) := by
            simp [notifyGate, hremove]
          rw [List.foldl_cons, hstep,
            notifyGate_of_ungated (Container.mk cs none) 1 rfl rest]
          exact ⟨rfl, rfl, rfl⟩

theorem claim7_gate_autoremoval_witness :
    (([none, some "u1", some "u1", none] : List (Option String)).foldl notifyGate
        (createContentGate false ⟨[.content 0, .content 1], none⟩, 0)).1.children
        = [DomNode.content 0, DomNode.content 1] ∧
      (([none, some "u1", some "u1", none] : List (Option String)).foldl notifyGate
        (createContentGate false ⟨[.content 0, .content 1], none⟩, 0)).1.authGate
        = none ∧
      (([none, some "u1", some "u1", none] : List (Option String)).foldl notifyGate
        (createContentGate false ⟨[.content 0, .content 1], none⟩, 0)).2 = 1 :=
  claim7_gate_autoremoval [.content 0, .content 1]
    [none, some "u1", some "u1", none] (by decide)

/-! ## Progress store (src/js/database.js)

Firestore state for one user: the `users/{uid}` document's `stats` map
and the `users/{uid}/progress` subcollection.  Each progress document's
id is the problem id and its `problemId` field is set to the same value
by `updateProblemProgress`, so the subcollection is a list of records
looked up by the `problemId` field.  `localStorage` is an association
list of string keys and values; progress lives under keys
`progress_<problemId>`.  Server timestamps are explicit `Nat` arguments;
the Firestore handle `db` is a `Bool` flag (`null` check `!db`).
JS string falsiness (`!userId` etc.) is the `= ""` check. -/

structure ProgressRecord where
  problemId : String
  category : String
  status : String
  firstAccessedAt : Nat
  lastUpdatedAt : Nat
  solvedAt : Option Nat
  timeSpent : Int
  viewCount : Nat
deriving DecidableEq, Repr

structure UserStats where
  problemsSolved : Int
  problemsAccessed : Int
  totalTimeSpent : Int
  lastActivityAt : Nat
deriving DecidableEq, Repr

structure RemoteUser where
  stats : UserStats
  progress : List ProgressRecord
deriving DecidableEq, Repr

/-- The stats argument of `updateUserStats`; absent fields are `0`
(JS: absent properties are `undefined`, falsy, same branch as `0`). -/
structure StatsInc where
  problemsSolved : Int := 0
  problemsAccessed : Int := 0
  totalTimeSpent : Int := 0
deriving DecidableEq, Repr

/-- All fields of a progress record except `lastUpdatedAt`;
used to state what reconciliation leaves untouched. -/
structure RecordCore where
  problemId : String
  category : String
  status : String
  firstAccessedAt : Nat
  solvedAt : Option Nat
  timeSpent : Int
  viewCount : Nat
deriving DecidableEq, Repr

def dropLU (r : ProgressRecord) : RecordCore :=
  { problemId := r.problemId, category := r.category, status := r.status,
    firstAccessedAt := r.firstAccessedAt, solvedAt := r.solvedAt,
    timeSpent := r.timeSpent, viewCount := r.viewCount }

/-- Firestore document lookup `progressRef.get()` in the `progress`
subcollection (document id = problem id). -/
def findRecord (ps : List ProgressRecord) (pid : String) : Option ProgressRecord :=
  ps.find? (fun r => r.problemId = pid)

/-- Firestore `progressRef.update(...)`: rewrites the (unique) document
whose id is `pid`. -/
def updateRecord : List ProgressRecord → String → (ProgressRecord → ProgressRecord) →
    List ProgressRecord
  | [], _, _ => []
  | p :: rest, pid, f =>
      if p.problemId = pid then f p :: rest else p :: updateRecord rest pid f

/-- Embedding of `problemId.split('_')[0]`: the characters before the first `'_'`
(the whole string when there is none). -/
def categoryTag (pid : String) : String :=
  String.mk (pid.data.takeWhile (fun c => c ≠ '_'))

/-- Embedding of `PROBLEM_CATEGORIES[problemId.split('_')[0]] || 'Unknown'`. -/
def categoryName (pid : String) : String :=
  match categoryTag pid with
  | "lc" => "LeetCode"
  | "mlsd" => "ML System Design"
  | "mlcoding" => "ML Coding"
  | "behavioral" => "Behavioral"
  | _ => "Unknown"

/-- Embedding of `updateUserStats(userId, stats)` (database.js lines 381-406): always
touches `stats.lastActivityAt`, and increments each counter whose
requested delta is truthy (non-zero). -/
def updateUserStats (db : Bool) (userId : String) (inc : StatsInc) (now : Nat)
    (st : RemoteUser) : Bool × RemoteUser :=
  if db = false ∨ userId = "" then (false, st)
  else
    let s0 := st.stats
    let s1 := { s0 with lastActivityAt := now }
    let s2 :=
      if inc.problemsSolved ≠ 0 then
        { s1 with problemsSolved := s1.problemsSolved + inc.problemsSolved }
      else s1
    let s3 :=
      if inc.problemsAccessed ≠ 0 then
        { s2 with problemsAccessed := s2.problemsAccessed + inc.problemsAccessed }
      else s2
    let s4 :=
      if inc.totalTimeSpent ≠ 0 then
        { s3 with totalTimeSpent := s3.totalTimeSpent + inc.totalTimeSpent }
      else s3
    (true, { st with stats := s4 })

/-- Embedding of `updateProblemProgress(userId, problemId, status)` (database.js lines
234-290).  The existing-document branch writes `{status, lastUpdatedAt}`
and, only when the status transitions into `'solved'`, also writes
`solvedAt` and bumps `stats.problemsSolved`.  The new-document branch
creates the record and bumps `stats.problemsAccessed` (plus
`problemsSolved` when created already solved). -/
def updateProblemProgress (db : Bool) (userId problemId status : String)
    (now : Nat) (st : RemoteUser) : Bool × RemoteUser :=
  if db = false ∨ userId = "" ∨ problemId = "" then (false, st)
  else
    match findRecord st.progress problemId with
    | some data =>
        let transition := status = "solved" ∧ data.status ≠ "solved"
        let st1 :=
          if transition then
            (updateUserStats db userId { problemsSolved := 1 } now st).2
          else st
        let f := fun (r : ProgressRecord) =>
          { r with status := status, lastUpdatedAt := now,
                   solvedAt := if transition then some now else r.solvedAt }
        (true, { st1 with progress := updateRecord st1.progress problemId f })
    | none =>
        let newRec : ProgressRecord :=
          { problemId := problemId, category := categoryName problemId,
            status := status, firstAccessedAt := now, lastUpdatedAt := now,
            solvedAt := if status = "solved" then some now else none,
            timeSpent := 0, viewCount := 1 }
        let st1 := { st with progress := st.progress ++ [newRec] }
        let inc : StatsInc :=
          { problemsAccessed := 1,
            problemsSolved := if status = "solved" then 1 else 0 }
        (true, (updateUserStats db userId inc now st1).2)

/-- Embedding of `updateTimeSpent(userId, problemId, seconds)` (database.js lines
348-368): guarded by `!db || !userId || !problemId || seconds <= 0`;
`progressRef.update` throws on a missing document, which the `catch`
turns into `false` with no write; otherwise `timeSpent` is incremented by
`seconds` and the user's `stats.totalTimeSpent` as well. -/
def updateTimeSpent (db : Bool) (userId problemId : String) (seconds : Int)
    (now : Nat) (st : RemoteUser) : Bool × RemoteUser :=
  if db = false ∨ userId = "" ∨ problemId = "" ∨ seconds ≤ 0 then (false, st)
  else
    match findRecord st.progress problemId with
    | none => (false, st)
    | some _ =>
        let f := fun (r : ProgressRecord) =>
          { r with timeSpent := r.timeSpent + seconds, lastUpdatedAt := now }
        let st1 := { st with progress := updateRecord st.progress problemId f }
        (true, (updateUserStats db userId { totalTimeSpent := seconds } now st1).2)

/-! ### localStorage and the two sync directions -/

/-- Model of `localStorage` as an association list (keys are unique in a real
store; theorems that need this carry a `Nodup` hypothesis). -/
abbrev LocalStore := List (String × String)

def getItem (st : LocalStore) (k : String) : Option String :=
  (List.find? (fun p => p.1 = k) st).map Prod.snd

def setItem : LocalStore → String → String → LocalStore
  | [], k, v => [(k, v)]
  | p :: rest, k, v =>
      if p.1 = k then (k, v) :: rest else p :: setItem rest k v

/-- Embedding of `key.startsWith('progress_')`, at the character level. -/
def isProgKey (k : String) : Bool :=
  "progress_".data.isPrefixOf k.data

/-- Embedding of `key.replace('progress_', '')`: for a key that starts with the
9-character marker `progress_`, replacing its first occurrence is exactly
dropping the first 9 characters. -/
def pidOfKey (k : String) : String :=
  String.mk (k.data.drop 9)

/-- The template `` `progress_${problemId}` ``. -/
def progKey (pid : String) : String :=
  "progress_" ++ pid

/-- Embedding of the `syncLocalStorageToFirestore` inner loop (database.js lines 710-719):
for each key of the filtered key list, re-read the status and upsert it
remotely when both the status and the extracted problem id are truthy.
Returns the `syncedCount` and the new remote state. -/
def pushKeys (db : Bool) (userId : String) (store : LocalStore) (now : Nat) :
    List String → RemoteUser → Nat × RemoteUser
  | [], st => (0, st)
  | k :: ks, st =>
      let problemId := pidOfKey k
      match getItem store k with
      | some status =>
          if status ≠ "" ∧ problemId ≠ "" then
            let st1 := (updateProblemProgress db userId problemId status now st).2
            let rest := pushKeys db userId store now ks st1
            (rest.1 + 1, rest.2)
          else pushKeys db userId store now ks st
      | none => pushKeys db userId store now ks st

/-- Embedding of `syncLocalStorageToFirestore(userId)` (database.js lines 701-727):
`Object.keys(localStorage).filter(k => k.startsWith('progress_'))`, then
the push loop. -/
def syncLocalStorageToFirestore (db : Bool) (userId : String)
    (store : LocalStore) (now : Nat) (st : RemoteUser) : Nat × RemoteUser :=
  if db = false ∨ userId = "" then (0, st)
  else pushKeys db userId store now ((store.map Prod.fst).filter isProgKey) st

/-- Embedding of `getAllProgress(userId)` (database.js lines 671-688): the whole
`progress` subcollection ordered by `lastUpdatedAt` descending. -/
def getAllProgress (db : Bool) (userId : String) (st : RemoteUser) :
    List ProgressRecord :=
  if db = false ∨ userId = "" then []
  else List.insertionSort (fun a b => b.lastUpdatedAt ≤ a.lastUpdatedAt) st.progress

/-- Embedding of the `syncFirestoreToLocalStorage` inner loop (database.js lines 744-748):
`localStorage.setItem('progress_' + item.problemId, item.status)` for
every fetched record. -/
def pullItems : List ProgressRecord → LocalStore → LocalStore
  | [], l => l
  | r :: rest, l => pullItems rest (setItem l (progKey r.problemId) r.status)

/-- Embedding of `syncFirestoreToLocalStorage(userId)` (database.js lines 736-756). -/
def syncFirestoreToLocalStorage (db : Bool) (userId : String) (st : RemoteUser)
    (l : LocalStore) : Nat × LocalStore :=
  if db = false ∨ userId = "" then (0, l)
  else ((getAllProgress db userId st).length, pullItems (getAllProgress db userId st) l)

/-- Reconciliation as wired in `handleAuthStateChange` (auth.js lines
140-147): `syncLocalStorageToFirestore` followed by
`syncFirestoreToLocalStorage` for the same user. -/
def reconcile (db : Bool) (userId : String) (l : LocalStore) (st : RemoteUser)
    (now : Nat) : LocalStore × RemoteUser :=
  let st1 := (syncLocalStorageToFirestore db userId l now st).2
  ((syncFirestoreToLocalStorage db userId st1 l).2, st1)

/-! ### Spec-side merge policy (for comparison with the code)

Modelled from the spec: the ranking
`not-started < working < needs-help < solved` and the field-level merge
that resolves `status` to the maximum of the local and remote statuses
under that ranking.  This is the policy §4.3 of the spec prescribes; the
theorems below compare it against what `updateProblemProgress` does. -/

def statusRank (s : String) : Nat :=
  match s with
  | "not-started" => 0
  | "working" => 1
  | "needs-help" => 2
  | "solved" => 3
  | _ => 0

def specMergedStatus (localStatus remoteStatus : String) : String :=
  if statusRank localStatus ≤ statusRank remoteStatus then remoteStatus
  else localStatus

/-! ### Basic lemmas about the embedded Firestore operations -/

theorem updateUserStats_progress (db : Bool) (uid : String) (inc : StatsInc)
    (now : Nat) (st : RemoteUser) :
    (updateUserStats db uid inc now st).2.progress = st.progress := by
  unfold updateUserStats
  split <;> rfl

theorem updateUserStats_stats_eq (uid : String) (inc : StatsInc) (now : Nat)
    (st : RemoteUser) (hu : uid ≠ "") :
    (updateUserStats true uid inc now st).2.stats =
      { problemsSolved := st.stats.problemsSolved + inc.problemsSolved,
        problemsAccessed := st.stats.problemsAccessed + inc.problemsAccessed,
        totalTimeSpent := st.stats.totalTimeSpent + inc.totalTimeSpent,
        lastActivityAt := now } := by
  unfold updateUserStats
  rw [if_neg (by simp [hu])]
  by_cases h1 : inc.problemsSolved = 0 <;>
    by_cases h2 : inc.problemsAccessed = 0 <;>
      by_cases h3 : inc.totalTimeSpent = 0 <;>
        simp [h1, h2, h3]

theorem findRecord_updateRecord_self (ps : List ProgressRecord) (pid : String)
    (f : ProgressRecord → ProgressRecord) (d : ProgressRecord)
    (hfind : findRecord ps pid = some d)
    (hpid : (f d).problemId = d.problemId) :
    findRecord (updateRecord ps pid f) pid = some (f d) := by
  induction ps with
  | nil => simp [findRecord] at hfind
  | cons p rest ih =>
      by_cases hp : p.problemId = pid
      · have hd : p = d := by
          simp [findRecord, List.find?_cons, hp] at hfind
          exact hfind
        subst hd
        simp [updateRecord, hp, findRecord, List.find?_cons, hpid.trans hp]
      · have hfind' : findRecord rest pid = some d := by
          simpa [findRecord, List.find?_cons, hp] using hfind
        simpa [updateRecord, hp, findRecord, List.find?_cons] using ih hfind'

theorem findRecord_updateRecord_ne (ps : List ProgressRecord) (pid q : String)
    (f : ProgressRecord → ProgressRecord)
    (hf : ∀ r, r.problemId = pid → (f r).problemId = r.problemId)
    (hq : q ≠ pid) :
    findRecord (updateRecord ps pid f) q = findRecord ps q := by
  induction ps with
  | nil => rfl
  | cons p rest ih =>
      by_cases hp : p.problemId = pid
      · have : (f p).problemId = p.problemId := hf p hp
        simp [updateRecord, hp, findRecord, List.find?_cons, this, Ne.symm hq]
      · simp [updateRecord, hp, findRecord, List.find?_cons]
        split <;> simp_all [findRecord]

/-- Whether the stored record for `pid` currently has status `'solved'`
(false when there is no record). -/
def recordSolved (st : RemoteUser) (pid : String) : Bool :=
  match findRecord st.progress pid with
  | some d => d.status = "solved"
  | none => false

/-- Claim C9: `updateProblemProgress` bumps `stats.problemsSolved` by one
exactly when the write transitions the record into `'solved'` — an
existing record whose previous status was not `'solved'` now set to
`'solved'`, or a record first created with status `'solved'`; re-setting
an already-solved record to `'solved'` leaves the counter unchanged, as
does any write with a non-`'solved'` status. -/
theorem claim9_problemsSolved_increment (uid pid status : String) (now : Nat)
    (st : RemoteUser) (hu : uid ≠ "") (hp : pid ≠ "") :
    (updateProblemProgress true uid pid status now st).2.stats.problemsSolved =
      st.stats.problemsSolved +
        (if status = "solved" ∧ recordSolved st pid = false then 1 else 0) := by
  unfold updateProblemProgress recordSolved
  rw [if_neg (by simp [hu, hp])]
  cases hfind : findRecord st.progress pid with
  | some d =>
      by_cases hs : status = "solved" <;> by_cases hd : d.status = "solved" <;>
        simp [hfind, hs, hd, updateUserStats_stats_eq uid _ now st hu]
  | none =>
      by_cases hs : status = "solved" <;>
        simp [hfind, hs, updateUserStats_stats_eq uid _ now _ hu]

theorem claim9_problemsSolved_increment_witness :
    (updateProblemProgress true "u1" "lc_1" "solved" 3
        { stats := { problemsSolved := 0, problemsAccessed := 0,
                     totalTimeSpent := 0, lastActivityAt := 0 },
          progress := [] }).2.stats.problemsSolved =
      (0 : Int) +
        (if ("solved" : String) = "solved" ∧
            recordSolved
              { stats := { problemsSolved := 0, problemsAccessed := 0,
                           totalTimeSpent := 0, lastActivityAt := 0 },
                progress := [] } "lc_1" = false then 1 else 0) :=
  claim9_problemsSolved_increment "u1" "lc_1" "solved" 3 _
    (by decide) (by decide)

/-- The cumulative time of the record for `pid`, when it exists. -/
def recTime (st : RemoteUser) (pid : String) : Option Int :=
  (findRecord st.progress pid).map (fun d => d.timeSpent)

/-- Claim C10: `updateTimeSpent` performs no write and returns `false`
whenever the database handle, the user id, or the problem id is missing
or `seconds ≤ 0`; every write it does perform adds the strictly positive
`seconds` to the record's cumulative `timeSpent`; consequently no call
ever decreases any record's `timeSpent`. -/
theorem claim10_updateTimeSpent_monotone (db : Bool) (uid pid : String)
    (seconds : Int) (now : Nat) (st : RemoteUser) :
    ((db = false ∨ uid = "" ∨ pid = "" ∨ seconds ≤ 0) →
        updateTimeSpent db uid pid seconds now st = (false, st)) ∧
      ((updateTimeSpent db uid pid seconds now st).1 = true →
        0 < seconds ∧
          ∃ a, recTime st pid = some a ∧
            recTime (updateTimeSpent db uid pid seconds now st).2 pid =
              some (a + seconds)) ∧
      (∀ q a, recTime st q = some a →
        ∃ b, recTime (updateTimeSpent db uid pid seconds now st).2 q = some b ∧
          a ≤ b) := by
  by_cases hg : db = false ∨ uid = "" ∨ pid = "" ∨ seconds ≤ 0
  · have heq : updateTimeSpent db uid pid seconds now st = (false, st) := by
      unfold updateTimeSpent
      rw [if_pos hg]
    refine ⟨fun _ => heq, ?_, ?_⟩
    · rw [heq]
      intro h
      cases h
    · intro q a ha
      exact ⟨a, by rw [heq]; exact ha, le_refl a⟩
  · push_neg at hg
    obtain ⟨hdb, hu, hp, hsec'⟩ := hg
    have hdb' : db = true := by
      cases db
      · exact absurd rfl hdb
      · rfl
    subst hdb'
    cases hfind : findRecord st.progress pid with
    | none =>
        have heq : updateTimeSpent true uid pid seconds now st = (false, st) := by
          unfold updateTimeSpent
          rw [if_neg (by simp [hu, hp]; omega)]
          rw [hfind]
        refine ⟨fun _ => heq, ?_, ?_⟩
        · rw [heq]
          intro h
          cases h
        · intro q a ha
          exact ⟨a, by rw [heq]; exact ha, le_refl a⟩
    | some d =>
        have hpid : ∀ r : ProgressRecord, r.problemId = pid →
            ({ r with timeSpent := r.timeSpent + seconds,
                      lastUpdatedAt := now } : ProgressRecord).problemId =
              r.problemId := fun r _ => rfl
        have heq : (updateTimeSpent true uid pid seconds now st).2.progress =
            updateRecord st.progress pid (fun r =>
              { r with timeSpent := r.timeSpent + seconds,
                       lastUpdatedAt := now }) := by
          unfold updateTimeSpent
          rw [if_neg (by simp [hu, hp]; omega)]
          rw [hfind, updateUserStats_progress]
        refine ⟨fun hcontra => ?_, fun _ => ⟨hsec', ?_⟩, ?_⟩
        · rcases hcontra with h | h | h | h
          · cases h
          · exact absurd h hu
          · exact absurd h hp
          · omega
        · refine ⟨d.timeSpent, by simp [recTime, hfind], ?_⟩
          unfold recTime
          rw [heq, findRecord_updateRecord_self st.progress pid _ d hfind rfl]
          rfl
        · intro q a ha
          by_cases hq : q = pid
          · subst hq
            have ha' : a = d.timeSpent := by
              simp [recTime, hfind] at ha
              omega
            refine ⟨a + seconds, ?_, by omega⟩
            unfold recTime
            rw [heq, findRecord_updateRecord_self st.progress q _ d hfind rfl]
            simp [ha']
          · refine ⟨a, ?_, le_refl a⟩
            unfold recTime
            rw [heq, findRecord_updateRecord_ne st.progress pid q _ hpid hq]
            exact ha

theorem claim10_updateTimeSpent_monotone_witness :
    ((false = false ∨ ("" : String) = "" ∨ ("" : String) = "" ∨ (0 : Int) ≤ 0) →
        updateTimeSpent false "" "" 0 0
            { stats := { problemsSolved := 0, problemsAccessed := 0,
                         totalTimeSpent := 0, lastActivityAt := 0 },
              progress := [] } =
          (false,
            { stats := { problemsSolved := 0, problemsAccessed := 0,
                         totalTimeSpent := 0, lastActivityAt := 0 },
              progress := [] })) ∧
      ((updateTimeSpent false "" "" 0 0
          { stats := { problemsSolved := 0, problemsAccessed := 0,
                       totalTimeSpent := 0, lastActivityAt := 0 },
            progress := [] }).1 = true →
        (0 : Int) < 0 ∧
          ∃ a, recTime
              { stats := { problemsSolved := 0, problemsAccessed := 0,
                           totalTimeSpent := 0, lastActivityAt := 0 },
                progress := [] } "" = some a ∧
            recTime (updateTimeSpent false "" "" 0 0
              { stats := { problemsSolved := 0, problemsAccessed := 0,
                           totalTimeSpent := 0, lastActivityAt := 0 },
                progress := [] }).2 "" = some (a + 0)) ∧
      (∀ q a, recTime
          { stats := { problemsSolved := 0, problemsAccessed := 0,
                       totalTimeSpent := 0, lastActivityAt := 0 },
            progress := [] } q = some a →
        ∃ b, recTime (updateTimeSpent false "" "" 0 0
            { stats := { problemsSolved := 0, problemsAccessed := 0,
                         totalTimeSpent := 0, lastActivityAt := 0 },
              progress := [] }).2 q = some b ∧ a ≤ b) :=
  claim10_updateTimeSpent_monotone false "" "" 0 0 _

/-- Local ledger for the C1 scenario: `lc_1` marked `working` locally. -/
def c1Local : LocalStore := [("progress_lc_1", "working")]

/-- Remote ledger for the C1 scenario: `lc_1` already `solved` remotely. -/
def c1Remote : RemoteUser :=
  { stats := { problemsSolved := 1, problemsAccessed := 1,
               totalTimeSpent := 0, lastActivityAt := 0 },
    progress := [{ problemId := "lc_1", category := "LeetCode",
                   status := "solved", firstAccessedAt := 0,
                   lastUpdatedAt := 0, solvedAt := some 0,
                   timeSpent := 0, viewCount := 1 }] }

/-- Claim C1 (counterexample): reconciling a local `working` against an
existing remote `solved` for the same problem id ends with `working` on
both sides — the remote `solved` is downgraded — whereas the claimed
ranking merge would resolve to `solved`.  The push step of
`updateProblemProgress` writes the local status unconditionally. -/
theorem claim1_counterexample :
    specMergedStatus "working" "solved" = "solved" ∧
      getItem (reconcile true "u1" c1Local c1Remote 5).1 "progress_lc_1" =
        some "working" ∧
      (findRecord (reconcile true "u1" c1Local c1Remote 5).2.progress
          "lc_1").map (fun d => d.status) = some "working" ∧
      ¬((findRecord (reconcile true "u1" c1Local c1Remote 5).2.progress
          "lc_1").map (fun d => d.status) = some "solved") := by
  refine ⟨rfl, by decide, by decide, by decide⟩

/-- Claim C1 (amended): during reconciliation, for every problem id whose
remote record already exists, the merged status is simply the pushed
local status — `updateProblemProgress` overwrites the remote `status`
field unconditionally, with no ranking merge, so an existing remote
`'solved'` is downgraded by a local non-solved value, and local `working`
+ remote `solved` resolves to `working` (not `solved`). -/
theorem claim1_push_overwrites_status (uid pid status : String) (now : Nat)
    (st : RemoteUser) (d : ProgressRecord) (hu : uid ≠ "") (hp : pid ≠ "")
    (hfind : findRecord st.progress pid = some d) :
    ∃ d', findRecord
        (updateProblemProgress true uid pid status now st).2.progress pid =
          some d' ∧ d'.status = status := by
  unfold updateProblemProgress
  rw [if_neg (by simp [hu, hp])]
  rw [hfind]
  simp only
  by_cases htr : status = "solved" ∧ d.status ≠ "solved"
  · rw [if_pos htr]
    have hfind1 : findRecord
        ((updateUserStats true uid { problemsSolved := 1 } now st).2).progress
          pid = some d := by
      rw [updateUserStats_progress]
      exact hfind
    exact ⟨_, findRecord_updateRecord_self _ pid _ d hfind1 rfl, rfl⟩
  · rw [if_neg htr]
    exact ⟨_, findRecord_updateRecord_self _ pid _ d hfind rfl, rfl⟩

theorem claim1_push_overwrites_status_witness :
    ∃ d', findRecord
        (updateProblemProgress true "u1" "lc_1" "working" 5 c1Remote).2.progress
          "lc_1" = some d' ∧ d'.status = "working" :=
  claim1_push_overwrites_status "u1" "lc_1" "working" 5 c1Remote
    { problemId := "lc_1", category := "LeetCode", status := "solved",
      firstAccessedAt := 0, lastUpdatedAt := 0, solvedAt := some 0,
      timeSpent := 0, viewCount := 1 }
    (by decide) (by decide) (by decide)

/-! ### Key-string lemmas: `progress_` marker manipulation -/

theorem isProgKey_iff {k : String} :
    isProgKey k = true ↔ "progress_".data <+: k.data := by
  unfold isProgKey
  exact List.isPrefixOf_iff_prefix

theorem progKey_pidOfKey {k : String} (h : isProgKey k = true) :
    progKey (pidOfKey k) = k := by
  obtain ⟨t, ht⟩ := isProgKey_iff.mp h
  apply String.ext
  show ("progress_".data) ++ (k.data.drop 9) = k.data
  rw [← ht, List.drop_left' (by decide)]

theorem pidOfKey_progKey (pid : String) : pidOfKey (progKey pid) = pid := by
  apply String.ext
  show ((progKey pid).data).drop 9 = pid.data
  show (("progress_".data) ++ pid.data).drop 9 = pid.data
  rw [List.drop_left' (by decide)]

theorem progKey_inj {a b : String} (h : progKey a = progKey b) : a = b := by
  have := congrArg pidOfKey h
  rwa [pidOfKey_progKey, pidOfKey_progKey] at this

theorem isProgKey_progKey (pid : String) : isProgKey (progKey pid) = true := by
  rw [isProgKey_iff]
  show "progress_".data <+: ("progress_".data ++ pid.data)
  exact List.prefix_append _ _

/-! ### localStorage lemmas -/

theorem getItem_setItem_self (l : LocalStore) (k v : String) :
    getItem (setItem l k v) k = some v := by
  induction l with
  | nil => simp [setItem, getItem]
  | cons p rest ih =>
      by_cases hp : p.1 = k
      · simp [setItem, hp, getItem]
      · simp only [setItem, if_neg hp]
        simpa [getItem, List.find?_cons, hp] using ih

theorem getItem_setItem_ne (l : LocalStore) (k v k' : String) (h : k' ≠ k) :
    getItem (setItem l k v) k' = getItem l k' := by
  induction l with
  | nil => simp [setItem, getItem, Ne.symm h]
  | cons p rest ih =>
      by_cases hp : p.1 = k
      · simp [setItem, hp, getItem, List.find?_cons, Ne.symm h]
      · simp only [setItem, if_neg hp]
        by_cases hp' : p.1 = k'
        · simp [getItem, List.find?_cons, hp']
        · simpa [getItem, List.find?_cons, hp'] using ih

theorem setItem_getItem_self (l : LocalStore) (k v : String)
    (h : getItem l k = some v) : setItem l k v = l := by
  induction l with
  | nil => simp [getItem] at h
  | cons p rest ih =>
      by_cases hp : p.1 = k
      · have hv : p.2 = v := by
          simpa [getItem, List.find?_cons, hp] using h
        simp only [setItem, if_pos hp]
        rw [← hp, ← hv]
      · have h' : getItem rest k = some v := by
          simpa [getItem, List.find?_cons, hp] using h
        simp only [setItem, if_neg hp]
        rw [ih h']

theorem getItem_eq_some_mem {l : LocalStore} {k v : String}
    (h : getItem l k = some v) : k ∈ List.map Prod.fst l := by
  induction l with
  | nil => simp [getItem] at h
  | cons p rest ih =>
      by_cases hp : p.1 = k
      · simp [hp]
      · have h' : getItem rest k = some v := by
          simpa [getItem, List.find?_cons, hp] using h
        simp [ih h']

theorem mem_keys_setItem {l : LocalStore} {k v a : String}
    (h : a ∈ List.map Prod.fst (setItem l k v)) :
    a ∈ List.map Prod.fst l ∨ a = k := by
  induction l with
  | nil =>
      simp [setItem] at h
      exact Or.inr h
  | cons p rest ih =>
      by_cases hp : p.1 = k
      · simp only [setItem, if_pos hp] at h
        simp at h
        rcases h with h | h
        · exact Or.inr h
        · exact Or.inl (by simp [h])
      · simp only [setItem, if_neg hp] at h
        simp at h
        rcases h with h | h
        · exact Or.inl (by simp [h])
        · rcases ih (by simpa using h) with h' | h'
          · exact Or.inl (by simp at h' ⊢; exact Or.inr h')
          · exact Or.inr h'

/-! ### Pull-loop lemmas -/

theorem pullItems_getItem_untouched (rs : List ProgressRecord) (l : LocalStore)
    (k : String) (h : ∀ r ∈ rs, progKey r.problemId ≠ k) :
    getItem (pullItems rs l) k = getItem l k := by
  induction rs generalizing l with
  | nil => rfl
  | cons r rest ih =>
      have hr : progKey r.problemId ≠ k := h r (by simp)
      rw [pullItems, ih _ (fun r' hr' => h r' (by simp [hr']))]
      exact getItem_setItem_ne l _ _ _ (Ne.symm hr)

theorem pullItems_getItem_mem (rs : List ProgressRecord) (l : LocalStore)
    (hnd : (rs.map ProgressRecord.problemId).Nodup) (r : ProgressRecord)
    (hr : r ∈ rs) :
    getItem (pullItems rs l) (progKey r.problemId) = some r.status := by
  induction rs generalizing l with
  | nil => simp at hr
  | cons r0 rest ih =>
      rcases List.mem_cons.mp hr with heq | hmem
      · subst heq
        have hnd' : (∀ x ∈ rest, ¬x.problemId = r.problemId) ∧
            (rest.map ProgressRecord.problemId).Nodup := by simpa using hnd
        have hnotin : ∀ r' ∈ rest, progKey r'.problemId ≠ progKey r.problemId := by
          intro r' hr' hcontra
          exact hnd'.1 r' hr' (progKey_inj hcontra)
        rw [pullItems, pullItems_getItem_untouched rest _ _ hnotin]
        exact getItem_setItem_self l _ _
      · rw [pullItems]
        have hnd' : (∀ x ∈ rest, ¬x.problemId = r0.problemId) ∧
            (rest.map ProgressRecord.problemId).Nodup := by simpa using hnd
        exact ih _ hnd'.2 hmem

theorem pullItems_noop (rs : List ProgressRecord) (l : LocalStore)
    (h : ∀ r ∈ rs, getItem l (progKey r.problemId) = some r.status) :
    pullItems rs l = l := by
  induction rs with
  | nil => rfl
  | cons r rest ih =>
      rw [pullItems, setItem_getItem_self l _ _ (h r (by simp))]
      exact ih (fun r' hr' => h r' (by simp [hr']))

theorem mem_keys_pullItems {rs : List ProgressRecord} {l : LocalStore}
    {a : String} (h : a ∈ List.map Prod.fst (pullItems rs l)) :
    a ∈ List.map Prod.fst l ∨ ∃ r ∈ rs, a = progKey r.problemId := by
  induction rs generalizing l with
  | nil => exact Or.inl h
  | cons r rest ih =>
      rw [pullItems] at h
      rcases ih h with h' | ⟨r', hr', ha⟩
      · rcases mem_keys_setItem h' with h'' | h''
        · exact Or.inl h''
        · exact Or.inr ⟨r, by simp, h''⟩
      · exact Or.inr ⟨r', by simp [hr'], ha⟩

/-! ### Push-loop lemmas: how `updateProblemProgress` shapes the
subcollection's document ids -/

theorem updateRecord_map_problemId (ps : List ProgressRecord) (pid : String)
    (f : ProgressRecord → ProgressRecord)
    (hf : ∀ r, r.problemId = pid → (f r).problemId = r.problemId) :
    (updateRecord ps pid f).map ProgressRecord.problemId =
      ps.map ProgressRecord.problemId := by
  induction ps with
  | nil => rfl
  | cons p rest ih =>
      by_cases hp : p.problemId = pid
      · simp [updateRecord, hp, hf p hp]
      · simp [updateRecord, hp, ih]

/-- The progress list of `updateProblemProgress` under a passing guard:
an existing document keeps the id list unchanged (and the id was already
present); a created document appends its id (which was absent). -/
theorem updateProblemProgress_pids (uid pid s : String) (t : Nat)
    (st : RemoteUser) (hu : uid ≠ "") (hp : pid ≠ "") :
    ((updateProblemProgress true uid pid s t st).2.progress.map
          ProgressRecord.problemId = st.progress.map ProgressRecord.problemId ∧
        pid ∈ st.progress.map ProgressRecord.problemId) ∨
      ((updateProblemProgress true uid pid s t st).2.progress.map
          ProgressRecord.problemId =
            st.progress.map ProgressRecord.problemId ++ [pid] ∧
        pid ∉ st.progress.map ProgressRecord.problemId) := by
  unfold updateProblemProgress
  rw [if_neg (by simp [hu, hp])]
  cases hfind : findRecord st.progress pid with
  | some d =>
      left
      constructor
      · by_cases htr : s = "solved" ∧ d.status ≠ "solved"
        · simp only [if_pos htr]
          rw [updateUserStats_progress]
          exact updateRecord_map_problemId _ _ _ (fun r _ => rfl)
        · simp only [if_neg htr]
          exact updateRecord_map_problemId _ _ _ (fun r _ => rfl)
      · have hmem := List.mem_of_find?_eq_some hfind
        have hpid : d.problemId = pid := by
          have := List.find?_some hfind
          simpa using this
        exact List.mem_map.mpr ⟨d, hmem, hpid⟩
  | none =>
      right
      constructor
      · rw [updateUserStats_progress]
        simp
      · intro hcontra
        rcases List.mem_map.mp hcontra with ⟨d, hd, hpid⟩
        have := List.find?_eq_none.mp hfind d hd
        simp [hpid] at this

theorem updateProblemProgress_pid_mem (uid pid s : String) (t : Nat)
    (st : RemoteUser) (hu : uid ≠ "") (hp : pid ≠ "") :
    pid ∈ (updateProblemProgress true uid pid s t st).2.progress.map
      ProgressRecord.problemId := by
  rcases updateProblemProgress_pids uid pid s t st hu hp with ⟨heq, hmem⟩ | ⟨heq, _⟩
  · rw [heq]
    exact hmem
  · rw [heq]
    simp

theorem updateProblemProgress_pid_superset (uid pid s q : String) (t : Nat)
    (st : RemoteUser) (hu : uid ≠ "") (hp : pid ≠ "")
    (hq : q ∈ st.progress.map ProgressRecord.problemId) :
    q ∈ (updateProblemProgress true uid pid s t st).2.progress.map
      ProgressRecord.problemId := by
  rcases updateProblemProgress_pids uid pid s t st hu hp with ⟨heq, _⟩ | ⟨heq, _⟩
  · rw [heq]
    exact hq
  · rw [heq]
    exact List.mem_append_left _ hq

theorem updateProblemProgress_nodup (uid pid s : String) (t : Nat)
    (st : RemoteUser) (hu : uid ≠ "") (hp : pid ≠ "")
    (hnd : (st.progress.map ProgressRecord.problemId).Nodup) :
    ((updateProblemProgress true uid pid s t st).2.progress.map
      ProgressRecord.problemId).Nodup := by
  rcases updateProblemProgress_pids uid pid s t st hu hp with ⟨heq, _⟩ | ⟨heq, hnm⟩
  · rw [heq]
    exact hnd
  · rw [heq]
    simp [List.nodup_append, hnd, hnm]

theorem pushKeys_pid_superset (uid : String) (store : LocalStore) (t : Nat)
    (hu : uid ≠ "") (ks : List String) (st : RemoteUser) (q : String)
    (hq : q ∈ st.progress.map ProgressRecord.problemId) :
    q ∈ (pushKeys true uid store t ks st).2.progress.map
      ProgressRecord.problemId := by
  induction ks generalizing st with
  | nil => exact hq
  | cons k ks ih =>
      rw [pushKeys]
      cases hget : getItem store k with
      | none => exact ih st hq
      | some status =>
          by_cases hc : status ≠ "" ∧ pidOfKey k ≠ ""
          · simp only [if_pos hc]
            exact ih _ (updateProblemProgress_pid_superset uid _ status q t st
              hu hc.2 hq)
          · simp only [if_neg hc]
            exact ih st hq

theorem pushKeys_pid_mem (uid : String) (store : LocalStore) (t : Nat)
    (hu : uid ≠ "") (ks : List String) (st : RemoteUser) (k : String)
    (hk : k ∈ ks) (s : String) (hget : getItem store k = some s)
    (hs : s ≠ "") (hp : pidOfKey k ≠ "") :
    pidOfKey k ∈ (pushKeys true uid store t ks st).2.progress.map
      ProgressRecord.problemId := by
  induction ks generalizing st with
  | nil => simp at hk
  | cons k0 ks ih =>
      rw [pushKeys]
      rcases List.mem_cons.mp hk with heq | hmem
      · subst heq
        rw [hget]
        simp only [if_pos (And.intro hs hp)]
        exact pushKeys_pid_superset uid store t hu ks _ _
          (updateProblemProgress_pid_mem uid _ s t st hu hp)
      · cases hget0 : getItem store k0 with
        | none => exact ih st hmem
        | some s0 =>
            by_cases hc : s0 ≠ "" ∧ pidOfKey k0 ≠ ""
            · simp only [if_pos hc]
              exact ih _ hmem
            · simp only [if_neg hc]
              exact ih st hmem

theorem pushKeys_nodup (uid : String) (store : LocalStore) (t : Nat)
    (hu : uid ≠ "") (ks : List String) (st : RemoteUser)
    (hnd : (st.progress.map ProgressRecord.problemId).Nodup) :
    ((pushKeys true uid store t ks st).2.progress.map
      ProgressRecord.problemId).Nodup := by
  induction ks generalizing st with
  | nil => exact hnd
  | cons k ks ih =>
      rw [pushKeys]
      cases hget : getItem store k with
      | none => exact ih st hnd
      | some status =>
          by_cases hc : status ≠ "" ∧ pidOfKey k ≠ ""
          · simp only [if_pos hc]
            exact ih _ (updateProblemProgress_nodup uid _ status t st hu
              hc.2 hnd)
          · simp only [if_neg hc]
            exact ih st hnd

/-! ### Core preservation: a push that writes an unchanged status only
touches `lastUpdatedAt` -/

theorem updateRecord_map_dropLU (ps : List ProgressRecord) (pid : String)
    (f : ProgressRecord → ProgressRecord)
    (h : ∀ d, findRecord ps pid = some d → dropLU (f d) = dropLU d) :
    (updateRecord ps pid f).map dropLU = ps.map dropLU := by
  induction ps with
  | nil => rfl
  | cons p rest ih =>
      by_cases hp : p.problemId = pid
      · have hfind : findRecord (p :: rest) pid = some p := by
          simp [findRecord, List.find?_cons, hp]
        simp [updateRecord, hp, h p hfind]
      · simp only [updateRecord, if_neg hp, List.map_cons]
        rw [ih (fun d hd => h d (by simpa [findRecord, List.find?_cons, hp] using hd))]

theorem findRecord_of_mem_nodup (ps : List ProgressRecord)
    (hnd : (ps.map ProgressRecord.problemId).Nodup) (d : ProgressRecord)
    (hd : d ∈ ps) : findRecord ps d.problemId = some d := by
  induction ps with
  | nil => simp at hd
  | cons p rest ih =>
      have hnd' : (∀ x ∈ rest, ¬x.problemId = p.problemId) ∧
          (rest.map ProgressRecord.problemId).Nodup := by simpa using hnd
      rcases List.mem_cons.mp hd with heq | hmem
      · subst heq
        simp [findRecord, List.find?_cons]
      · have hne : ¬p.problemId = d.problemId :=
          fun hcon => hnd'.1 d hmem hcon.symm
        simp only [findRecord, List.find?_cons]
        rw [decide_eq_false hne]
        exact ih hnd'.2 hmem

theorem core_mem_transfer {ps qs : List ProgressRecord}
    (hcore : ps.map dropLU = qs.map dropLU) {pid s : String}
    (h : ∃ d ∈ ps, d.problemId = pid ∧ d.status = s) :
    ∃ d ∈ qs, d.problemId = pid ∧ d.status = s := by
  rcases h with ⟨d, hd, hpid, hs⟩
  have hmem : dropLU d ∈ qs.map dropLU := by
    rw [← hcore]
    exact List.mem_map.mpr ⟨d, hd, rfl⟩
  rcases List.mem_map.mp hmem with ⟨d', hd', hdd⟩
  have h1 : d'.problemId = d.problemId := congrArg RecordCore.problemId hdd
  have h2 : d'.status = d.status := congrArg RecordCore.status hdd
  exact ⟨d', hd', h1.trans hpid, h2.trans hs⟩

theorem pids_eq_of_core_eq {ps qs : List ProgressRecord}
    (hcore : ps.map dropLU = qs.map dropLU) :
    ps.map ProgressRecord.problemId = qs.map ProgressRecord.problemId := by
  have := congrArg (List.map RecordCore.problemId) hcore
  simpa [List.map_map, Function.comp, dropLU] using this

/-- Pushing a status equal to the stored one: no solved-transition, so no
stats update and no `solvedAt` write — only `status` (same value) and
`lastUpdatedAt` are written. -/
theorem updateProblemProgress_same_status (uid pid s : String) (t : Nat)
    (st : RemoteUser) (d : ProgressRecord) (hu : uid ≠ "") (hp : pid ≠ "")
    (hfind : findRecord st.progress pid = some d) (hst : d.status = s) :
    (updateProblemProgress true uid pid s t st).2.stats = st.stats ∧
      (updateProblemProgress true uid pid s t st).2.progress.map dropLU =
        st.progress.map dropLU := by
  unfold updateProblemProgress
  rw [if_neg (by simp [hu, hp]), hfind]
  have htr : ¬(s = "solved" ∧ d.status ≠ "solved") := by
    rintro ⟨h1, h2⟩
    exact h2 (hst.trans h1)
  simp only [htr, if_false, eq_self_iff_true, if_neg htr]
  refine ⟨trivial, ?_⟩
  apply updateRecord_map_dropLU
  intro d' hd'
  have hdd : d' = d := by
    rw [hfind] at hd'
    exact (Option.some.inj hd').symm
  subst hdd
  simp [dropLU, hst]

theorem pushKeys_preserve_core (uid : String) (store : LocalStore) (t : Nat)
    (hu : uid ≠ "") (ks : List String) (st : RemoteUser)
    (hnd : (st.progress.map ProgressRecord.problemId).Nodup)
    (H : ∀ k ∈ ks, ∀ s, getItem store k = some s → s ≠ "" → pidOfKey k ≠ "" →
      ∃ d ∈ st.progress, d.problemId = pidOfKey k ∧ d.status = s) :
    (pushKeys true uid store t ks st).2.stats = st.stats ∧
      (pushKeys true uid store t ks st).2.progress.map dropLU =
        st.progress.map dropLU := by
  induction ks generalizing st with
  | nil => exact ⟨rfl, rfl⟩
  | cons k ks ih =>
      rw [pushKeys]
      cases hget : getItem store k with
      | none =>
          exact ih st hnd (fun k' hk' => H k' (by simp [hk']))
      | some s =>
          by_cases hc : s ≠ "" ∧ pidOfKey k ≠ ""
          · simp only [if_pos hc]
            obtain ⟨d, hd, hpid, hs⟩ := H k (by simp) s hget hc.1 hc.2
            have hfind : findRecord st.progress (pidOfKey k) = some d := by
              rw [← hpid]
              exact findRecord_of_mem_nodup st.progress hnd d hd
            have hstep := updateProblemProgress_same_status uid (pidOfKey k) s
              t st d hu hc.2 hfind hs
            have hnd1 : (((updateProblemProgress true uid (pidOfKey k) s t
                st).2).progress.map ProgressRecord.problemId).Nodup := by
              rw [pids_eq_of_core_eq hstep.2]
              exact hnd
            have H1 : ∀ k' ∈ ks, ∀ s', getItem store k' = some s' → s' ≠ "" →
                pidOfKey k' ≠ "" →
                ∃ d' ∈ ((updateProblemProgress true uid (pidOfKey k) s t
                  st).2).progress, d'.problemId = pidOfKey k' ∧
                    d'.status = s' :=
              fun k' hk' s' hget' hs' hp' =>
                core_mem_transfer hstep.2.symm
                  (H k' (by simp [hk']) s' hget' hs' hp')
            have hrec := ih _ hnd1 H1
            exact ⟨hrec.1.trans hstep.1, hrec.2.trans hstep.2⟩
          · simp only [if_neg hc]
            exact ih st hnd (fun k' hk' => H k' (by simp [hk']))

/-- Unfolding of one reconciliation run under valid handles. -/
theorem reconcile_eq (uid : String) (l : LocalStore) (st : RemoteUser)
    (now : Nat) (hu : uid ≠ "") :
    reconcile true uid l st now =
      (pullItems
        (List.insertionSort (fun a b => b.lastUpdatedAt ≤ a.lastUpdatedAt)
          ((pushKeys true uid l now ((l.map Prod.fst).filter isProgKey)
            st).2.progress)) l,
       (pushKeys true uid l now ((l.map Prod.fst).filter isProgKey) st).2) := by
  have hng : ¬(true = false ∨ uid = "") := by simp [hu]
  unfold reconcile syncLocalStorageToFirestore syncFirestoreToLocalStorage
    getAllProgress
  simp only [if_neg hng]

/-- Claim C4 (amended): running reconciliation a second time in a row
with no intervening local changes leaves the local ledger unchanged and
leaves the remote ledger unchanged in its stats and in every record
field except `lastUpdatedAt` — the second push re-writes each pushed
record's `status` (same value) and stamps a fresh `lastUpdatedAt`, so
full remote equality fails (see the counterexample) but nothing else
moves. -/
theorem claim4_reconcile_idempotent_mod_timestamps (uid : String)
    (l : LocalStore) (r : RemoteUser) (t1 t2 : Nat) (hu : uid ≠ "")
    (hnd : (r.progress.map ProgressRecord.problemId).Nodup) :
    (reconcile true uid (reconcile true uid l r t1).1
        (reconcile true uid l r t1).2 t2).1 = (reconcile true uid l r t1).1 ∧
      (reconcile true uid (reconcile true uid l r t1).1
        (reconcile true uid l r t1).2 t2).2.stats =
          (reconcile true uid l r t1).2.stats ∧
      (reconcile true uid (reconcile true uid l r t1).1
          (reconcile true uid l r t1).2 t2).2.progress.map dropLU =
        (reconcile true uid l r t1).2.progress.map dropLU := by
  rw [reconcile_eq uid l r t1 hu]
  set ks1 := (l.map Prod.fst).filter isProgKey with hks1
  set r1 := (pushKeys true uid l t1 ks1 r).2 with hr1
  set sorted1 := List.insertionSort
    (fun a b : ProgressRecord => b.lastUpdatedAt ≤ a.lastUpdatedAt) r1.progress
    with hsorted1
  set l1 := pullItems sorted1 l with hl1
  rw [reconcile_eq uid l1 r1 t2 hu]
  set ks2 := (l1.map Prod.fst).filter isProgKey with hks2
  set r2 := (pushKeys true uid l1 t2 ks2 r1).2 with hr2
  -- run-1 facts
  have hnd1 : (r1.progress.map ProgressRecord.problemId).Nodup :=
    pushKeys_nodup uid l t1 hu ks1 r hnd
  have hperm1 : sorted1.Perm r1.progress := List.perm_insertionSort _ _
  have hnd_sorted1 : (sorted1.map ProgressRecord.problemId).Nodup :=
    ((hperm1.map ProgressRecord.problemId).nodup_iff).mpr hnd1
  have inv : ∀ d ∈ r1.progress,
      getItem l1 (progKey d.problemId) = some d.status := by
    intro d hd
    exact pullItems_getItem_mem sorted1 l hnd_sorted1 d (hperm1.mem_iff.mpr hd)
  -- every key the second push processes matches an existing remote record
  -- holding the same status
  have H2 : ∀ k ∈ ks2, ∀ s, getItem l1 k = some s → s ≠ "" →
      pidOfKey k ≠ "" →
      ∃ d ∈ r1.progress, d.problemId = pidOfKey k ∧ d.status = s := by
    intro k hk s hget hs hp
    have hprog : isProgKey k = true := (List.mem_filter.mp hk).2
    have hkey : progKey (pidOfKey k) = k := progKey_pidOfKey hprog
    by_cases hex : ∃ d ∈ r1.progress, progKey d.problemId = k
    · obtain ⟨d, hd, hdk⟩ := hex
      have hpid : d.problemId = pidOfKey k := by
        rw [← hdk, pidOfKey_progKey]
      have hinv := inv d hd
      rw [hdk, hget] at hinv
      exact ⟨d, hd, hpid, Option.some.inj hinv.symm⟩
    · push_neg at hex
      have huntouched : getItem l1 k = getItem l k := by
        rw [hl1]
        exact pullItems_getItem_untouched sorted1 l k
          (fun rr hrr => hex rr (hperm1.mem_iff.mp hrr))
      have hget_l : getItem l k = some s := huntouched ▸ hget
      have hk1 : k ∈ ks1 :=
        List.mem_filter.mpr ⟨getItem_eq_some_mem hget_l, hprog⟩
      have hpid_mem : pidOfKey k ∈ r1.progress.map ProgressRecord.problemId :=
        pushKeys_pid_mem uid l t1 hu ks1 r k hk1 s hget_l hs hp
      obtain ⟨d, hd, hdp⟩ := List.mem_map.mp hpid_mem
      have hinv := inv d hd
      rw [hdp, hkey, hget] at hinv
      exact ⟨d, hd, hdp, Option.some.inj hinv.symm⟩
  -- the second push only restamps lastUpdatedAt
  have hpush2 := pushKeys_preserve_core uid l1 t2 hu ks2 r1 hnd1 H2
  -- the second pull writes back exactly what is already stored
  have hpull2 : pullItems (List.insertionSort
      (fun a b : ProgressRecord => b.lastUpdatedAt ≤ a.lastUpdatedAt)
      r2.progress) l1 = l1 := by
    apply pullItems_noop
    intro rr hrr
    have hrr2 : rr ∈ r2.progress :=
      (List.perm_insertionSort _ _).mem_iff.mp hrr
    obtain ⟨d, hd, hdp, hds⟩ := core_mem_transfer hpush2.2
      ⟨rr, hrr2, rfl, rfl⟩
    have hinv := inv d hd
    rw [hdp, hds] at hinv
    exact hinv
  exact ⟨hpull2, hpush2.1, hpush2.2⟩

/-- Local ledger for the C4 scenario: one problem worked on locally. -/
def c4Local : LocalStore := [("progress_lc_2", "working")]

/-- Remote ledger for the C4 scenario: fresh user, empty progress. -/
def c4Remote : RemoteUser :=
  { stats := { problemsSolved := 0, problemsAccessed := 0,
               totalTimeSpent := 0, lastActivityAt := 0 },
    progress := [] }

/-- Claim C4 (counterexample): reconciliation run twice in a row is not
idempotent as stated — the second run leaves the local ledger alone but
rewrites every pushed remote record's `lastUpdatedAt` with the second
run's server timestamp, so the remote ledger after the second run
differs from the remote ledger after the first. -/
theorem claim4_counterexample :
    ¬((reconcile true "u1" (reconcile true "u1" c4Local c4Remote 1).1
          (reconcile true "u1" c4Local c4Remote 1).2 2).1 =
            (reconcile true "u1" c4Local c4Remote 1).1 ∧
        (reconcile true "u1" (reconcile true "u1" c4Local c4Remote 1).1
          (reconcile true "u1" c4Local c4Remote 1).2 2).2 =
            (reconcile true "u1" c4Local c4Remote 1).2) := by
  decide

theorem claim4_reconcile_idempotent_mod_timestamps_witness :
    (reconcile true "u1" (reconcile true "u1" c4Local c4Remote 1).1
        (reconcile true "u1" c4Local c4Remote 1).2 2).1 =
          (reconcile true "u1" c4Local c4Remote 1).1 ∧
      (reconcile true "u1" (reconcile true "u1" c4Local c4Remote 1).1
        (reconcile true "u1" c4Local c4Remote 1).2 2).2.stats =
          (reconcile true "u1" c4Local c4Remote 1).2.stats ∧
      (reconcile true "u1" (reconcile true "u1" c4Local c4Remote 1).1
          (reconcile true "u1" c4Local c4Remote 1).2 2).2.progress.map dropLU =
        (reconcile true "u1" c4Local c4Remote 1).2.progress.map dropLU :=
  claim4_reconcile_idempotent_mod_timestamps "u1" c4Local c4Remote 1 2
    (by decide) (by decide)

end MLIP
